import Mathlib

/-!
# gin: port allocation and build orchestration

A shallow embedding of `lib/port.go` and `lib/builder.go`.

* Go's `int` is modelled as a mathematical integer in the 64-bit range, with the
  additions of the source wrapped around explicitly (`wrapInt`).
* `CheckPort` binds a socket; its answer is an input of the model, a function from
  ports to booleans that stays fixed during one call.
-/

namespace gin

/-! ## Machine integers -/

/-- Smallest value of Go's 64-bit `int`. -/
def minInt : Int := -9223372036854775808

/-- Largest value of Go's 64-bit `int`. -/
def maxInt : Int := 9223372036854775807

/-- Two's complement wrap-around of 64-bit `int` arithmetic. -/
def wrapInt (x : Int) : Int := (x + 9223372036854775808) % 18446744073709551616 - 9223372036854775808

/-- The value is representable as a Go `int`. -/
def IsInt (x : Int) : Prop := minInt ≤ x ∧ x ≤ maxInt

instance (x : Int) : Decidable (IsInt x) := by unfold IsInt; infer_instance

/-! ## lib/port.go -/

/-- The loop of `FindAvailablePort`:
`for port := startPort; port < startPort+100; port++ { if CheckPort(port) { return port } }; return -1`.
`limit` is the value of `startPort+100`; `none` means the fuel ran out before the loop ended. -/
def FindAvailablePort.loop (CheckPort : Int → Bool) (limit : Int) : Nat → Int → Option Int
  | 0, _ => none
  | fuel + 1, port =>
    if port < limit then
      if CheckPort port = true then some port
      else FindAvailablePort.loop CheckPort limit fuel (wrapInt (port + 1))
    else some (-1)

/-- `FindAvailablePort(startPort)`; the loop body runs at most 100 times, so 101 steps
of fuel cover the whole loop. -/
def FindAvailablePort (CheckPort : Int → Bool) (startPort : Int) : Option Int :=
  FindAvailablePort.loop CheckPort (wrapInt (startPort + 100)) 101 startPort

/-- The inner loop of `FindAvailablePorts`:
`for port := appPort; port < appPort+100; port++ { if port != availableProxyPort && CheckPort(port) { availableAppPort = port; break } }`.
The result is the value of `availableAppPort` after the loop. -/
def FindAvailablePorts.loop (CheckPort : Int → Bool) (availableProxyPort limit availableAppPort : Int) :
    Nat → Int → Option Int
  | 0, _ => none
  | fuel + 1, port =>
    if port < limit then
      if port ≠ availableProxyPort ∧ CheckPort port = true then some port
      else FindAvailablePorts.loop CheckPort availableProxyPort limit availableAppPort fuel (wrapInt (port + 1))
    else some availableAppPort

/-- The second half of `FindAvailablePorts` (lines 44-59), once `availableProxyPort` is known. -/
def FindAvailablePorts.app (CheckPort : Int → Bool) (appPort availableProxyPort : Int) :
    Option (Int × Int) :=
  if CheckPort appPort = false ∨ appPort = availableProxyPort then
    match FindAvailablePorts.loop CheckPort availableProxyPort (wrapInt (appPort + 100)) appPort 101 appPort with
    | none => none
    | some availableAppPort =>
      if availableAppPort = appPort ∧ (CheckPort appPort = false ∨ appPort = availableProxyPort) then
        some (-1, -1)
      else some (availableProxyPort, availableAppPort)
  else some (availableProxyPort, appPort)

/-- `FindAvailablePorts(proxyPort, appPort)`. -/
def FindAvailablePorts (CheckPort : Int → Bool) (proxyPort appPort : Int) : Option (Int × Int) :=
  if proxyPort ≠ appPort ∧ CheckPort proxyPort = true ∧ CheckPort appPort = true then
    some (proxyPort, appPort)
  else if CheckPort proxyPort = false then
    match FindAvailablePort CheckPort proxyPort with
    | none => none
    | some availableProxyPort =>
      if availableProxyPort = -1 then some (-1, -1)
      else FindAvailablePorts.app CheckPort appPort availableProxyPort
  else FindAvailablePorts.app CheckPort appPort proxyPort

/-! ## Strings, errors and processes (the Go library as far as `builder.go` uses it)

Go strings are modelled by Lean strings (sequences of Unicode code points). -/

/-- `strings.HasSuffix(s, suffix)`:
`len(s) >= len(suffix) && s[len(s)-len(suffix):] == suffix`. The suffix used by the
source is ASCII, so comparing code points and comparing bytes agree. -/
def strings.HasSuffix (s suffix : String) : Bool :=
  decide (suffix.length ≤ s.length) && (s.data.drop (s.length - suffix.length) == suffix.data)

/-- `unicode.IsSpace`: the Latin-1 white space characters and the other code points with
the Unicode White_Space property. -/
def unicode.IsSpace (r : Char) : Bool :=
  let c := r.toNat
  if c ≤ 0xFF then
    c = 0x09 || c = 0x0A || c = 0x0B || c = 0x0C || c = 0x0D || c = 0x20 || c = 0x85 || c = 0xA0
  else
    c = 0x1680 || (0x2000 ≤ c && c ≤ 0x200A) || c = 0x2028 || c = 0x2029 || c = 0x202F ||
    c = 0x205F || c = 0x3000

/-- `strings.TrimSpace(s)`: `s` without its leading and trailing white space. -/
def strings.TrimSpace (s : String) : String :=
  String.mk (((s.data.dropWhile unicode.IsSpace).reverse.dropWhile unicode.IsSpace).reverse)

/-- A Go `error` value, as far as `Build` can return one. -/
inductive GoError where
  /-- The value of `fmt.Errorf(format)`, a call with a format string and no operands. -/
  | Errorf (format : String)
  /-- An error reported by `os/exec` (command not found, exit status, ...). -/
  | exec (msg : String)
  deriving DecidableEq

/-- How the `fmt` package expands a format string when the call has no operands.
Plain text is copied. After a `%`, the flags `#0+- ` are skipped; then `%` prints a
percent sign, the end of the string prints `%!(NOVERB)`, and any other verb `c` prints
`%!c(MISSING)`. `inVerb` tells whether a `%` is being processed. Explicit argument
indexes, widths and precisions (`[`, `*`, `.`, digits) are not modelled: `none`. -/
def fmt.expand : Bool → List Char → Option (List Char)
  | false, [] => some []
  | false, c :: cs =>
    if c = '%' then fmt.expand true cs
    else (fmt.expand false cs).map (fun rest => c :: rest)
  | true, [] => some "%!(NOVERB)".data
  | true, c :: cs =>
    if c = '#' ∨ c = '0' ∨ c = '+' ∨ c = '-' ∨ c = ' ' then fmt.expand true cs
    else if c = '[' ∨ c = '*' ∨ c = '.' ∨ c.isDigit = true then none
    else if c = '%' then (fmt.expand false cs).map (fun rest => '%' :: rest)
    else (fmt.expand false cs).map (fun rest => "%!".data ++ c :: "(MISSING)".data ++ rest)

/-- `err.Error()`, the message of an error; `none` where `fmt.expand` is not defined. -/
def GoError.Error : GoError → Option String
  | GoError.Errorf format => (fmt.expand false format.data).map String.mk
  | GoError.exec msg => some msg

/-- An `exec.Cmd` as `Build` sets it up: program, arguments (`Args[0]` is the program)
and working directory. -/
structure Cmd where
  Path : String
  Args : List String
  Dir : String
  deriving DecidableEq

/-- `exec.Command(name, arg...)`. -/
def exec.Command (name : String) (arg : List String) : Cmd :=
  { Path := name, Args := name :: arg, Dir := "" }

/-- `os.ProcessState`, reduced to what `Build` reads from it: the answer of `Success()`. -/
structure ProcessState where
  success : Bool
  deriving DecidableEq

/-- What `cmd.CombinedOutput()` leaves behind: the combined output, the returned error,
and `cmd.ProcessState`, which is nil (`none`) when the process was never started. -/
structure Completed where
  output : String
  err : Option GoError
  ProcessState : Option ProcessState
  deriving DecidableEq

/-- The process exited with a non-zero status: `os/exec` then reports an unsuccessful
process state and returns an `*ExitError`. -/
def Completed.ExitedNonZero (r : Completed) : Prop :=
  r.ProcessState = some { success := false } ∧ r.err ≠ none

/-- The command could not be launched at all: an error and no process state. -/
def Completed.LaunchFailed (r : Completed) : Prop :=
  r.ProcessState = none ∧ r.err ≠ none

/-- The operating system as `builder.go` sees it. `σ` is the state of the machine (files,
installed programs); running a command may change it. -/
structure OS (σ : Type) where
  /-- The constant `runtime.GOOS`. -/
  GOOS : String
  /-- The function `filepath.Join` for two elements. -/
  Join : String → String → String
  /-- Running a command to completion with `CombinedOutput`. -/
  CombinedOutput : Cmd → σ → Completed × σ

/-- The machine while `Build` runs: its state, what was printed on standard output, and
the commands executed so far (oldest first). -/
structure World (σ : Type) where
  sys : σ
  stdout : String
  executed : List Cmd

/-- How a call ends: it returns a value or the Go runtime panics. -/
inductive Run (α : Type) where
  | returned (a : α)
  | panicked (reason : String)

/-! ## lib/builder.go -/

/-- The struct `builder`. -/
structure builder where
  dir : String
  binary : String
  errors : String
  useGodep : Bool
  wd : String
  preBuildCmd : String
  buildArgs : List String
  deriving DecidableEq

/-- `NewBuilder(dir, bin, useGodep, wd, buildArgs, preBuildCmd)` on a target whose
`runtime.GOOS` is `GOOS`. -/
def NewBuilder (GOOS : String) (dir bin : String) (useGodep : Bool) (wd : String)
    (buildArgs : List String) (preBuildCmd : String) : builder :=
  let bin := if bin.length = 0 then "bin" else bin
  let bin :=
    if GOOS = "windows" then
      if strings.HasSuffix bin ".exe" = false then bin ++ ".exe" else bin
    else bin
  let preBuildCmd := strings.TrimSpace preBuildCmd
  { dir := dir, binary := bin, errors := "", useGodep := useGodep, wd := wd,
    preBuildCmd := preBuildCmd, buildArgs := buildArgs }

/-- `(b *builder) Binary()`. -/
def builder.Binary (b : builder) : String := b.binary

/-- `(b *builder) Errors()`. -/
def builder.Errors (b : builder) : String := b.errors

/-- Running a command: the machine answers and the command is recorded. -/
def World.run {σ : Type} (os : OS σ) (cmd : Cmd) (w : World σ) : Completed × World σ :=
  let r := os.CombinedOutput cmd w.sys
  (r.1, { sys := r.2, stdout := w.stdout, executed := w.executed ++ [cmd] })

/-- The pre-build command of `Build` (lines 55-61). -/
def builder.preCmd (GOOS : String) (b : builder) : Cmd :=
  let preCmd :=
    if GOOS = "windows" then exec.Command "cmd.exe" ["/C", b.preBuildCmd]
    else exec.Command "sh" ["-c", b.preBuildCmd]
  { preCmd with Dir := b.dir }

/-- The argument list of the build step (lines 73-76). -/
def builder.args {σ : Type} (os : OS σ) (b : builder) : List String :=
  let args := ["go", "build", "-o", os.Join b.wd b.binary] ++ b.buildArgs
  if b.useGodep = true then ["godep"] ++ args else args

/-- The build command `exec.Command(args[0], args[1:]...)` with `cmd.Dir = b.dir`
(lines 77-78); `none` stands for the index panic on an empty `args`, which cannot happen
since `args` always starts with `go` or `godep`. -/
def builder.cmd {σ : Type} (os : OS σ) (b : builder) : Option Cmd :=
  match builder.args os b with
  | [] => none
  | name :: rest => some { exec.Command name rest with Dir := b.dir }

/-- The build step of `Build` (lines 72-88). `cmd.ProcessState.Success()` dereferences
the process state, so a nil process state makes the Go runtime panic. -/
def builder.buildStep {σ : Type} (os : OS σ) (b : builder) (w : World σ) :
    Run (Option GoError × builder) × World σ :=
  match builder.cmd os b with
  | none => (Run.panicked "index out of range", w)
  | some cmd =>
    let (r, w) := World.run os cmd w
    match r.ProcessState with
    | none => (Run.panicked "invalid memory address or nil pointer dereference", w)
    | some state =>
      let b := if state.success = true then { b with errors := "" } else { b with errors := r.output }
      if b.errors.length > 0 then (Run.returned (some (GoError.Errorf b.errors), b), w)
      else (Run.returned (r.err, b), w)

/-- `(b *builder) Build()`: the returned error (`none` is nil) with the builder after the
call, or a panic; and the machine afterwards. -/
def builder.Build {σ : Type} (os : OS σ) (b : builder) (w : World σ) :
    Run (Option GoError × builder) × World σ :=
  if b.preBuildCmd ≠ "" then
    let (pre, w) := World.run os (builder.preCmd os.GOOS b) w
    let w := if pre.output.length > 0 then { w with stdout := w.stdout ++ pre.output } else w
    match pre.err with
    | some _ =>
      let b := { b with errors := pre.output }
      (Run.returned (some (GoError.Errorf b.errors), b), w)
    | none => builder.buildStep os b w
  else builder.buildStep os b w

/-! ## Scripted machines, for concrete runs -/

/-- A machine on which the pre-build shell always ends as `pre` and every other command
as `main`. -/
def scriptedOS (GOOS : String) (pre main : Completed) : OS Unit :=
  { GOOS := GOOS
    Join := fun dir file => dir ++ "/" ++ file
    CombinedOutput := fun cmd _ =>
      (if cmd.Path = "sh" ∨ cmd.Path = "cmd.exe" then pre else main, ()) }

/-- A port table in which exactly the listed ports are free. -/
def freePorts (ports : List Int) (port : Int) : Bool := ports.contains port

/-- A machine on which nothing has run yet. -/
def freshWorld : World Unit := { sys := (), stdout := "", executed := [] }

/-- A command that exits with status 0 and prints nothing. -/
def Completed.silentSuccess : Completed :=
  { output := "", err := none, ProcessState := some { success := true } }

/-- A command that exits with status 1 after printing `output`. -/
def Completed.exitStatus1 (output : String) : Completed :=
  { output := output, err := some (GoError.exec "exit status 1"),
    ProcessState := some { success := false } }

/-- A command whose program is not installed: nothing is started. -/
def Completed.notFound : Completed :=
  { output := "", err := some (GoError.exec "executable file not found in $PATH"),
    ProcessState := none }

/-! ## Facts about the loops -/

theorem wrapInt_of_isInt {x : Int} (h : IsInt x) : wrapInt x = x := by
  unfold IsInt minInt maxInt at h
  unfold wrapInt
  omega

theorem wrapInt_isInt (x : Int) : IsInt (wrapInt x) := by
  unfold IsInt minInt maxInt wrapInt
  omega

/-- The value of `start+100` for a representable `start`: either the exact sum, or a
value below `start` when the sum overflows. -/
theorem wrapInt_add_100 {s : Int} (h : IsInt s) :
    (s + 100 ≤ maxInt ∧ wrapInt (s + 100) = s + 100) ∨
    (maxInt < s + 100 ∧ wrapInt (s + 100) < s) := by
  unfold IsInt minInt maxInt at h
  unfold wrapInt maxInt
  omega

/-- What a scanning loop returns: with enough fuel it yields the first port in
`[port, limit)` that satisfies the test, or the fallback value when there is none. -/
theorem FindAvailablePorts_loop_spec (C : Int → Bool) (x limit d : Int) (hl : limit ≤ maxInt) :
    ∀ (fuel : Nat) (port : Int), minInt ≤ port → (limit - port).toNat < fuel →
      ∃ r, FindAvailablePorts.loop C x limit d fuel port = some r ∧
        ((r = d ∧ ∀ q, port ≤ q → q < limit → ¬ (q ≠ x ∧ C q = true)) ∨
         (port ≤ r ∧ r < limit ∧ r ≠ x ∧ C r = true ∧
            ∀ q, port ≤ q → q < r → ¬ (q ≠ x ∧ C q = true))) := by
  intro fuel
  induction fuel with
  | zero => intro port _ h; omega
  | succ n ih =>
    intro port hp hf
    unfold FindAvailablePorts.loop
    by_cases hlt : port < limit
    · rw [if_pos hlt]
      by_cases hc : port ≠ x ∧ C port = true
      · rw [if_pos hc]
        refine ⟨port, rfl, Or.inr ⟨le_refl _, hlt, hc.1, hc.2, ?_⟩⟩
        intro q h1 h2; omega
      · rw [if_neg hc]
        have hw : wrapInt (port + 1) = port + 1 := by
          apply wrapInt_of_isInt
          unfold IsInt; unfold minInt at *; unfold maxInt at *; omega
        rw [hw]
        obtain ⟨r, hr, hspec⟩ := ih (port + 1) (by omega) (by omega)
        refine ⟨r, hr, ?_⟩
        rcases hspec with ⟨hd, hall⟩ | ⟨h1, h2, h3, h4, hall⟩
        · left
          refine ⟨hd, ?_⟩
          intro q hq1 hq2
          by_cases hqp : q = port
          · subst hqp; exact hc
          · exact hall q (by omega) hq2
        · right
          refine ⟨by omega, h2, h3, h4, ?_⟩
          intro q hq1 hq2
          by_cases hqp : q = port
          · subst hqp; exact hc
          · exact hall q (by omega) hq2
    · rw [if_neg hlt]
      refine ⟨d, rfl, Or.inl ⟨rfl, ?_⟩⟩
      intro q h1 h2; omega

theorem FindAvailablePort_loop_spec (C : Int → Bool) (limit : Int) (hl : limit ≤ maxInt) :
    ∀ (fuel : Nat) (port : Int), minInt ≤ port → (limit - port).toNat < fuel →
      ∃ r, FindAvailablePort.loop C limit fuel port = some r ∧
        ((r = -1 ∧ ∀ q, port ≤ q → q < limit → C q = false) ∨
         (port ≤ r ∧ r < limit ∧ C r = true ∧ ∀ q, port ≤ q → q < r → C q = false)) := by
  intro fuel
  induction fuel with
  | zero => intro port _ h; omega
  | succ n ih =>
    intro port hp hf
    unfold FindAvailablePort.loop
    by_cases hlt : port < limit
    · rw [if_pos hlt]
      by_cases hc : C port = true
      · rw [if_pos hc]
        refine ⟨port, rfl, Or.inr ⟨le_refl _, hlt, hc, ?_⟩⟩
        intro q h1 h2; omega
      · rw [if_neg hc]
        have hw : wrapInt (port + 1) = port + 1 := by
          apply wrapInt_of_isInt
          unfold IsInt; unfold minInt at *; unfold maxInt at *; omega
        rw [hw]
        have hcf : C port = false := by simpa using hc
        obtain ⟨r, hr, hspec⟩ := ih (port + 1) (by omega) (by omega)
        refine ⟨r, hr, ?_⟩
        rcases hspec with ⟨hd, hall⟩ | ⟨h1, h2, h3, hall⟩
        · left
          refine ⟨hd, ?_⟩
          intro q hq1 hq2
          by_cases hqp : q = port
          · subst hqp; exact hcf
          · exact hall q (by omega) hq2
        · right
          refine ⟨by omega, h2, h3, ?_⟩
          intro q hq1 hq2
          by_cases hqp : q = port
          · subst hqp; exact hcf
          · exact hall q (by omega) hq2
    · rw [if_neg hlt]
      refine ⟨-1, rfl, Or.inl ⟨rfl, ?_⟩⟩
      intro q h1 h2; omega

/-- `FindAvailablePort` always returns: 101 steps of fuel are enough. The result is the
first free port below the computed limit, or -1 when there is none. -/
theorem FindAvailablePort_limit (C : Int → Bool) (s : Int) (hs : IsInt s) :
    ∃ v, FindAvailablePort C s = some v ∧
      ((v = -1 ∧ ∀ q, s ≤ q → q < wrapInt (s + 100) → C q = false) ∨
       (s ≤ v ∧ v < wrapInt (s + 100) ∧ v < s + 100 ∧ C v = true ∧
          ∀ q, s ≤ q → q < v → C q = false)) := by
  have hw := wrapInt_add_100 hs
  have hl : wrapInt (s + 100) ≤ maxInt := (wrapInt_isInt _).2
  obtain ⟨r, hr, hspec⟩ := FindAvailablePort_loop_spec C (wrapInt (s + 100)) hl 101 s hs.1
    (by rcases hw with ⟨_, h⟩ | ⟨_, h⟩ <;> omega)
  refine ⟨r, hr, ?_⟩
  rcases hspec with h | ⟨h1, h2, h3, h4⟩
  · exact Or.inl h
  · exact Or.inr ⟨h1, h2, by rcases hw with ⟨_, h⟩ | ⟨_, h⟩ <;> omega, h3, h4⟩

/-- The window `[s, s+100)` seen through the computed limit, when only port numbers up
to 65535 can be free. -/
theorem lt_limit_of_free (C : Int → Bool) (hhi : ∀ p, 65535 < p → C p = false)
    {s q : Int} (hs : IsInt s) (h1 : s ≤ q) (h2 : q < s + 100) (hq : C q = true) :
    q < wrapInt (s + 100) := by
  rcases wrapInt_add_100 hs with ⟨_, h⟩ | ⟨h, _⟩
  · omega
  · have : C q = false := hhi q (by unfold maxInt at h; omega)
    rw [this] at hq; cases hq

theorem FindAvailablePort_window (C : Int → Bool) (s : Int) (hs : IsInt s)
    (hhi : ∀ p, 65535 < p → C p = false) :
    ∃ v, FindAvailablePort C s = some v ∧
      ((v = -1 ∧ ∀ q, s ≤ q → q < s + 100 → C q = false) ∨
       (s ≤ v ∧ v < s + 100 ∧ C v = true ∧ ∀ q, s ≤ q → q < v → C q = false)) := by
  obtain ⟨v, hv, hspec⟩ := FindAvailablePort_limit C s hs
  refine ⟨v, hv, ?_⟩
  rcases hspec with ⟨h1, h2⟩ | ⟨h1, _, h3, h4, h5⟩
  · left
    refine ⟨h1, ?_⟩
    intro q hq1 hq2
    by_contra hc
    have hq : C q = true := by simpa using hc
    have := h2 q hq1 (lt_limit_of_free C hhi hs hq1 hq2 hq)
    rw [this] at hq; cases hq
  · exact Or.inr ⟨h1, h3, h4, h5⟩

/-- The app-port half of `FindAvailablePorts` always returns, either the failure pair or
the given proxy port with the first free port of the window that differs from it. -/
theorem FindAvailablePorts_app_limit (C : Int → Bool) (a x : Int) (ha : IsInt a) :
    ∃ r, FindAvailablePorts.app C a x = some r ∧
      ((r = (-1, -1) ∧ (C a = false ∨ a = x) ∧
          ∀ q, a ≤ q → q < wrapInt (a + 100) → ¬ (q ≠ x ∧ C q = true)) ∨
       (∃ y, r = (x, y) ∧ a ≤ y ∧ y ≠ x ∧ C y = true ∧
          (y ≠ a → y < wrapInt (a + 100) ∧ y < a + 100) ∧
          ∀ q, a ≤ q → q < y → ¬ (q ≠ x ∧ C q = true))) := by
  unfold FindAvailablePorts.app
  by_cases hc : C a = false ∨ a = x
  · rw [if_pos hc]
    have hw := wrapInt_add_100 ha
    have hl : wrapInt (a + 100) ≤ maxInt := (wrapInt_isInt _).2
    obtain ⟨r, hr, hspec⟩ := FindAvailablePorts_loop_spec C x (wrapInt (a + 100)) a hl 101 a ha.1
      (by rcases hw with ⟨_, h⟩ | ⟨_, h⟩ <;> omega)
    rw [hr]
    rcases hspec with ⟨h1, h2⟩ | ⟨h1, h2, h3, h4, h5⟩
    · refine ⟨(-1, -1), ?_, Or.inl ⟨rfl, hc, h2⟩⟩
      simp [h1, hc]
    · have hne : r ≠ a := by
        intro he
        subst he
        rcases hc with hc | hc
        · rw [hc] at h4; cases h4
        · exact h3 hc
      refine ⟨(x, r), ?_, Or.inr ⟨r, rfl, h1, h3, h4, ?_, h5⟩⟩
      · simp [hne]
      · intro _
        exact ⟨h2, by rcases hw with ⟨_, h⟩ | ⟨_, h⟩ <;> omega⟩
  · rw [if_neg hc]
    have hc1 : C a = true := by
      by_contra h
      exact hc (Or.inl (by simpa using h))
    have hc2 : a ≠ x := fun h => hc (Or.inr h)
    refine ⟨(x, a), rfl, Or.inr ⟨a, rfl, le_refl _, hc2, hc1, ?_, ?_⟩⟩
    · intro h; exact absurd rfl h
    · intro q h1 h2; omega

theorem FindAvailablePorts_app_window (C : Int → Bool) (a x : Int) (ha : IsInt a)
    (hhi : ∀ p, 65535 < p → C p = false) :
    ∃ r, FindAvailablePorts.app C a x = some r ∧
      ((r = (-1, -1) ∧ ∀ q, a ≤ q → q < a + 100 → ¬ (q ≠ x ∧ C q = true)) ∨
       (∃ y, r = (x, y) ∧ a ≤ y ∧ y < a + 100 ∧ y ≠ x ∧ C y = true ∧
          ∀ q, a ≤ q → q < y → ¬ (q ≠ x ∧ C q = true))) := by
  obtain ⟨r, hr, hspec⟩ := FindAvailablePorts_app_limit C a x ha
  refine ⟨r, hr, ?_⟩
  rcases hspec with ⟨h1, _, h3⟩ | ⟨y, h1, h2, h3, h4, h5, h6⟩
  · left
    refine ⟨h1, ?_⟩
    intro q hq1 hq2 hq
    exact h3 q hq1 (lt_limit_of_free C hhi ha hq1 hq2 hq.2) hq
  · right
    refine ⟨y, h1, h2, ?_, h3, h4, h6⟩
    by_cases hya : y = a
    · omega
    · exact (h5 hya).2

/-- The fast path of `FindAvailablePorts` agrees with the general path: the function is
decided by whether `proxyPort` is free. -/
theorem FindAvailablePorts_eq (C : Int → Bool) (p a : Int) :
    FindAvailablePorts C p a =
      if C p = false then
        match FindAvailablePort C p with
        | none => none
        | some x => if x = -1 then some (-1, -1) else FindAvailablePorts.app C a x
      else FindAvailablePorts.app C a p := by
  unfold FindAvailablePorts
  by_cases hfast : p ≠ a ∧ C p = true ∧ C a = true
  · rw [if_pos hfast]
    have h1 : ¬ (C p = false) := by simp [hfast.2.1]
    have h2 : ¬ (C a = false ∨ a = p) := by
      intro h
      rcases h with h | h
      · rw [hfast.2.2] at h; cases h
      · exact hfast.1 h.symm
    rw [if_neg h1]
    unfold FindAvailablePorts.app
    rw [if_neg h2]
  · rw [if_neg hfast]

/-- A free requested port is its own scan result. -/
theorem FindAvailablePort_of_free (C : Int → Bool) (s : Int) (hs : IsInt s)
    (hhi : ∀ p, 65535 < p → C p = false) (hfree : C s = true) :
    FindAvailablePort C s = some s := by
  obtain ⟨v, hv, hspec⟩ := FindAvailablePort_window C s hs hhi
  rcases hspec with ⟨_, h2⟩ | ⟨h1, _, _, h4⟩
  · have := h2 s (le_refl _) (by omega)
    rw [this] at hfree; cases hfree
  · by_cases hvs : v = s
    · rw [hv, hvs]
    · have := h4 s (le_refl _) (by omega)
      rw [this] at hfree; cases hfree

/-! ## Port allocation: the claims -/

/-- C1: with availability fixed and no negative port free, `FindAvailablePorts` returns
either `(-1, -1)` or two distinct free ports, neither of them -1; one component is -1
only when the other one is. -/
theorem FindAvailablePorts_all_or_nothing (CheckPort : Int → Bool) (proxyPort appPort : Int)
    (hproxy : IsInt proxyPort) (happ : IsInt appPort)
    (hneg : ∀ p, p < 0 → CheckPort p = false) :
    ∃ x y, FindAvailablePorts CheckPort proxyPort appPort = some (x, y) ∧
      ((x = -1 ∧ y = -1) ∨
       (x ≠ y ∧ x ≠ -1 ∧ y ≠ -1 ∧ CheckPort x = true ∧ CheckPort y = true)) ∧
      (x = -1 ↔ y = -1) := by
  have hm1 : ∀ z, CheckPort z = true → z ≠ -1 := by
    intro z hz he
    have := hneg z (by omega)
    rw [this] at hz; cases hz
  have key : ∀ x, CheckPort x = true →
      ∃ x' y, FindAvailablePorts.app CheckPort appPort x = some (x', y) ∧
        ((x' = -1 ∧ y = -1) ∨
         (x' ≠ y ∧ x' ≠ -1 ∧ y ≠ -1 ∧ CheckPort x' = true ∧ CheckPort y = true)) ∧
        (x' = -1 ↔ y = -1) := by
    intro x hx
    obtain ⟨r, hr, hspec⟩ := FindAvailablePorts_app_limit CheckPort appPort x happ
    rcases hspec with ⟨h1, _⟩ | ⟨y, h1, _, h3, h4, _⟩
    · refine ⟨-1, -1, by rw [hr, h1], Or.inl ⟨rfl, rfl⟩, by simp⟩
    · have hx1 := hm1 x hx
      have hy1 := hm1 y h4
      refine ⟨x, y, by rw [hr, h1], Or.inr ⟨fun h => h3 h.symm, hx1, hy1, hx, h4⟩, ?_⟩
      constructor
      · intro h; exact absurd h hx1
      · intro h; exact absurd h hy1
  rw [FindAvailablePorts_eq]
  by_cases hc : CheckPort proxyPort = false
  · rw [if_pos hc]
    obtain ⟨v, hv, hspec⟩ := FindAvailablePort_limit CheckPort proxyPort hproxy
    rw [hv]
    rcases hspec with ⟨h1, _⟩ | ⟨_, _, _, h4, _⟩
    · refine ⟨-1, -1, by simp [h1], Or.inl ⟨rfl, rfl⟩, by simp⟩
    · have hv1 := hm1 v h4
      simp only [if_neg hv1]
      exact key v h4
  · rw [if_neg hc]
    exact key proxyPort (by simpa using hc)

/-- C2: with availability fixed, no negative port free (and none above 65535, the
largest TCP port), `FindAvailablePort(start)` returns the smallest free port `v` with
`start <= v < start+100`, and returns -1 exactly when none of these 100 ports is free. -/
theorem FindAvailablePort_smallest_free (CheckPort : Int → Bool) (startPort : Int)
    (hstart : IsInt startPort)
    (hneg : ∀ p, p < 0 → CheckPort p = false)
    (hhi : ∀ p, 65535 < p → CheckPort p = false) :
    ∃ v, FindAvailablePort CheckPort startPort = some v ∧
      (v = -1 ↔ ∀ q, startPort ≤ q → q < startPort + 100 → CheckPort q = false) ∧
      (v ≠ -1 → startPort ≤ v ∧ v < startPort + 100 ∧ CheckPort v = true ∧
        ∀ q, startPort ≤ q → q < v → CheckPort q = false) := by
  obtain ⟨v, hv, hspec⟩ := FindAvailablePort_window CheckPort startPort hstart hhi
  refine ⟨v, hv, ?_⟩
  rcases hspec with ⟨h1, h2⟩ | ⟨h1, h2, h3, h4⟩
  · exact ⟨⟨fun _ => h2, fun _ => h1⟩, fun h => absurd h1 h⟩
  · have hv1 : v ≠ -1 := by
      intro he
      have := hneg v (by omega)
      rw [this] at h3; cases h3
    refine ⟨⟨fun h => absurd h hv1, ?_⟩, fun _ => ⟨h1, h2, h3, h4⟩⟩
    intro hall
    have := hall v h1 h2
    rw [this] at h3; cases h3

/-- C6: two different requested ports that are both free are returned unchanged. -/
theorem FindAvailablePorts_fast_path (CheckPort : Int → Bool) (a b : Int) (hab : a ≠ b)
    (ha : CheckPort a = true) (hb : CheckPort b = true) :
    FindAvailablePorts CheckPort a b = some (a, b) := by
  unfold FindAvailablePorts
  rw [if_pos ⟨hab, ha, hb⟩]

/-- C10: with availability fixed and only port numbers 0..65535 possibly free, let `x` be
`FindAvailablePort(proxyPort)`. If `x` is -1 the result is `(-1, -1)`. Otherwise the
result is `(x, y)` with `y` the smallest free port of `[appPort, appPort+100)` different
from `x`, or `(-1, -1)` when there is no such port; `appPort` itself is kept exactly
when it is free and differs from `x`. -/
theorem FindAvailablePorts_resolution (CheckPort : Int → Bool) (proxyPort appPort : Int)
    (hproxy : IsInt proxyPort) (happ : IsInt appPort)
    (hneg : ∀ p, p < 0 → CheckPort p = false)
    (hhi : ∀ p, 65535 < p → CheckPort p = false) :
    ∃ x r, FindAvailablePort CheckPort proxyPort = some x ∧
      FindAvailablePorts CheckPort proxyPort appPort = some r ∧
      (x = -1 → r = (-1, -1)) ∧
      (x ≠ -1 →
        (r = (-1, -1) ∧
          ∀ q, appPort ≤ q → q < appPort + 100 → ¬ (CheckPort q = true ∧ q ≠ x)) ∨
        (∃ y, r = (x, y) ∧ appPort ≤ y ∧ y < appPort + 100 ∧ CheckPort y = true ∧ y ≠ x ∧
          (∀ q, appPort ≤ q → q < y → ¬ (CheckPort q = true ∧ q ≠ x)) ∧
          (y = appPort ↔ CheckPort appPort = true ∧ appPort ≠ x))) := by
  have key : ∀ x, x ≠ -1 →
      ∃ r, FindAvailablePorts.app CheckPort appPort x = some r ∧
        ((r = (-1, -1) ∧
          ∀ q, appPort ≤ q → q < appPort + 100 → ¬ (CheckPort q = true ∧ q ≠ x)) ∨
        (∃ y, r = (x, y) ∧ appPort ≤ y ∧ y < appPort + 100 ∧ CheckPort y = true ∧ y ≠ x ∧
          (∀ q, appPort ≤ q → q < y → ¬ (CheckPort q = true ∧ q ≠ x)) ∧
          (y = appPort ↔ CheckPort appPort = true ∧ appPort ≠ x))) := by
    intro x _
    obtain ⟨r, hr, hspec⟩ := FindAvailablePorts_app_window CheckPort appPort x happ hhi
    refine ⟨r, hr, ?_⟩
    rcases hspec with ⟨h1, h2⟩ | ⟨y, h1, h2, h3, h4, h5, h6⟩
    · left
      exact ⟨h1, fun q hq1 hq2 hq => h2 q hq1 hq2 ⟨hq.2, hq.1⟩⟩
    · right
      refine ⟨y, h1, h2, h3, h5, h4, fun q hq1 hq2 hq => h6 q hq1 hq2 ⟨hq.2, hq.1⟩, ?_⟩
      constructor
      · intro hy
        subst hy
        exact ⟨h5, h4⟩
      · intro hfree
        by_contra hne
        exact h6 appPort (le_refl _) (by omega) ⟨hfree.2, hfree.1⟩
  rw [FindAvailablePorts_eq]
  by_cases hc : CheckPort proxyPort = false
  · rw [if_pos hc]
    obtain ⟨v, hv, _⟩ := FindAvailablePort_window CheckPort proxyPort hproxy hhi
    rw [hv]
    by_cases hv1 : v = -1
    · refine ⟨v, (-1, -1), rfl, by simp [hv1], fun _ => rfl, fun h => absurd hv1 h⟩
    · obtain ⟨r, hr, hspec⟩ := key v hv1
      refine ⟨v, r, rfl, ?_, fun h => absurd h hv1, fun _ => hspec⟩
      simp only [if_neg hv1]
      exact hr
  · rw [if_neg hc]
    have hfree : CheckPort proxyPort = true := by simpa using hc
    have hp1 : proxyPort ≠ -1 := by
      intro he
      have := hneg proxyPort (by omega)
      rw [this] at hfree; cases hfree
    obtain ⟨r, hr, hspec⟩ := key proxyPort hp1
    exact ⟨proxyPort, r, FindAvailablePort_of_free CheckPort proxyPort hproxy hhi hfree, hr,
      fun h => absurd h hp1, fun _ => hspec⟩

/-- C7 (amended): with only port numbers 0..65535 possibly free, `FindAvailablePorts(a, a)`
returns two distinct free ports of `[a, a+100)`, neither -1, when at least two ports of
that window are free, and `(-1, -1)` otherwise. -/
theorem FindAvailablePorts_same_port (CheckPort : Int → Bool) (a : Int) (ha : IsInt a)
    (hneg : ∀ p, p < 0 → CheckPort p = false)
    (hhi : ∀ p, 65535 < p → CheckPort p = false) :
    ∃ x y, FindAvailablePorts CheckPort a a = some (x, y) ∧
      ((x = -1 ∧ y = -1 ∧
          ¬ ∃ p q, p ≠ q ∧ a ≤ p ∧ p < a + 100 ∧ a ≤ q ∧ q < a + 100 ∧
            CheckPort p = true ∧ CheckPort q = true) ∨
       (x ≠ y ∧ x ≠ -1 ∧ y ≠ -1 ∧ CheckPort x = true ∧ CheckPort y = true ∧
          a ≤ x ∧ x < a + 100 ∧ a ≤ y ∧ y < a + 100)) := by
  have hm1 : ∀ z, CheckPort z = true → z ≠ -1 := by
    intro z hz he
    have := hneg z (by omega)
    rw [this] at hz; cases hz
  have key : ∀ x, CheckPort x = true → a ≤ x → x < a + 100 →
      ∃ x' y, FindAvailablePorts.app CheckPort a x = some (x', y) ∧
        ((x' = -1 ∧ y = -1 ∧
            ¬ ∃ p q, p ≠ q ∧ a ≤ p ∧ p < a + 100 ∧ a ≤ q ∧ q < a + 100 ∧
              CheckPort p = true ∧ CheckPort q = true) ∨
         (x' ≠ y ∧ x' ≠ -1 ∧ y ≠ -1 ∧ CheckPort x' = true ∧ CheckPort y = true ∧
            a ≤ x' ∧ x' < a + 100 ∧ a ≤ y ∧ y < a + 100)) := by
    intro x hx hx1 hx2
    obtain ⟨r, hr, hspec⟩ := FindAvailablePorts_app_window CheckPort a x ha hhi
    rcases hspec with ⟨h1, h2⟩ | ⟨y, h1, h2, h3, h4, h5, _⟩
    · refine ⟨-1, -1, by rw [hr, h1], Or.inl ⟨rfl, rfl, ?_⟩⟩
      rintro ⟨p, q, hpq, hp1, hp2, hq1, hq2, hp, hq⟩
      by_cases hpx : p = x
      · exact h2 q hq1 hq2 ⟨fun h => hpq (hpx.trans h.symm), hq⟩
      · exact h2 p hp1 hp2 ⟨hpx, hp⟩
    · exact ⟨x, y, by rw [hr, h1],
        Or.inr ⟨fun h => h4 h.symm, hm1 x hx, hm1 y h5, hx, h5, hx1, hx2, h2, h3⟩⟩
  rw [FindAvailablePorts_eq]
  by_cases hc : CheckPort a = false
  · rw [if_pos hc]
    obtain ⟨v, hv, hspec⟩ := FindAvailablePort_window CheckPort a ha hhi
    rw [hv]
    rcases hspec with ⟨h1, h2⟩ | ⟨h1, h2, h3, _⟩
    · refine ⟨-1, -1, by simp [h1], Or.inl ⟨rfl, rfl, ?_⟩⟩
      rintro ⟨p, q, _, hp1, hp2, _, _, hp, _⟩
      have := h2 p hp1 hp2
      rw [this] at hp; cases hp
    · simp only [if_neg (hm1 v h3)]
      exact key v h3 h1 h2
  · rw [if_neg hc]
    exact key a (by simpa using hc) (le_refl _) (by omega)

/-- C7 (as stated) fails: when 8080 is the only free port, `FindAvailablePorts(8080, 8080)`
returns `(-1, -1)`, not two distinct free ports. -/
theorem FindAvailablePorts_same_port_exhausted :
    FindAvailablePorts (freePorts [8080]) 8080 8080 = some (-1, -1) ∧
    ¬ ∃ x y, FindAvailablePorts (freePorts [8080]) 8080 8080 = some (x, y) ∧
      x ≠ y ∧ x ≠ -1 ∧ y ≠ -1 ∧ freePorts [8080] x = true ∧ freePorts [8080] y = true := by
  have h : FindAvailablePorts (freePorts [8080]) 8080 8080 = some (-1, -1) := by decide
  refine ⟨h, ?_⟩
  rintro ⟨x, y, hxy, _, hx, _⟩
  rw [h] at hxy
  have : x = -1 := by
    have := Option.some.inj hxy
    exact (congrArg Prod.fst this).symm
  exact hx this

/-! ## Witnesses for the port claims -/

theorem freePorts_neg (ports : List Int) (hports : ∀ q ∈ ports, 0 ≤ q) :
    ∀ p, p < 0 → freePorts ports p = false := by
  intro p hp
  unfold freePorts
  by_contra hc
  have hmem : p ∈ ports := by simpa using hc
  have := hports p hmem
  omega

theorem freePorts_hi (ports : List Int) (hports : ∀ q ∈ ports, q ≤ 65535) :
    ∀ p, 65535 < p → freePorts ports p = false := by
  intro p hp
  unfold freePorts
  by_contra hc
  have hmem : p ∈ ports := by simpa using hc
  have := hports p hmem
  omega

theorem FindAvailablePorts_all_or_nothing_witness :
    ∃ x y, FindAvailablePorts (freePorts [3001, 3002]) 3000 3001 = some (x, y) ∧
      ((x = -1 ∧ y = -1) ∨
       (x ≠ y ∧ x ≠ -1 ∧ y ≠ -1 ∧ freePorts [3001, 3002] x = true ∧
          freePorts [3001, 3002] y = true)) ∧
      (x = -1 ↔ y = -1) :=
  FindAvailablePorts_all_or_nothing (freePorts [3001, 3002]) 3000 3001 (by decide) (by decide)
    (freePorts_neg _ (by decide))

theorem FindAvailablePort_smallest_free_witness :
    ∃ v, FindAvailablePort (freePorts [3002, 3007]) 3000 = some v ∧
      (v = -1 ↔ ∀ q, (3000 : Int) ≤ q → q < 3000 + 100 → freePorts [3002, 3007] q = false) ∧
      (v ≠ -1 → 3000 ≤ v ∧ v < 3000 + 100 ∧ freePorts [3002, 3007] v = true ∧
        ∀ q, 3000 ≤ q → q < v → freePorts [3002, 3007] q = false) :=
  FindAvailablePort_smallest_free (freePorts [3002, 3007]) 3000 (by decide)
    (freePorts_neg _ (by decide)) (freePorts_hi _ (by decide))

theorem FindAvailablePorts_fast_path_witness :
    (3000 : Int) ≠ 3001 ∧ FindAvailablePorts (freePorts [3000, 3001]) 3000 3001 = some (3000, 3001) :=
  ⟨by decide, FindAvailablePorts_fast_path (freePorts [3000, 3001]) 3000 3001 (by decide)
    (by decide) (by decide)⟩

theorem FindAvailablePorts_resolution_witness :
    ∃ x r, FindAvailablePort (freePorts [3001, 3002]) 3000 = some x ∧
      FindAvailablePorts (freePorts [3001, 3002]) 3000 3001 = some r ∧
      (x = -1 → r = (-1, -1)) ∧
      (x ≠ -1 →
        (r = (-1, -1) ∧
          ∀ q, (3001 : Int) ≤ q → q < 3001 + 100 → ¬ (freePorts [3001, 3002] q = true ∧ q ≠ x)) ∨
        (∃ y, r = (x, y) ∧ 3001 ≤ y ∧ y < 3001 + 100 ∧ freePorts [3001, 3002] y = true ∧ y ≠ x ∧
          (∀ q, 3001 ≤ q → q < y → ¬ (freePorts [3001, 3002] q = true ∧ q ≠ x)) ∧
          (y = 3001 ↔ freePorts [3001, 3002] 3001 = true ∧ 3001 ≠ x))) :=
  FindAvailablePorts_resolution (freePorts [3001, 3002]) 3000 3001 (by decide) (by decide)
    (freePorts_neg _ (by decide)) (freePorts_hi _ (by decide))

theorem FindAvailablePorts_same_port_witness :
    ∃ x y, FindAvailablePorts (freePorts [8081, 8085]) 8080 8080 = some (x, y) ∧
      ((x = -1 ∧ y = -1 ∧
          ¬ ∃ p q, p ≠ q ∧ (8080 : Int) ≤ p ∧ p < 8080 + 100 ∧ 8080 ≤ q ∧ q < 8080 + 100 ∧
            freePorts [8081, 8085] p = true ∧ freePorts [8081, 8085] q = true) ∨
       (x ≠ y ∧ x ≠ -1 ∧ y ≠ -1 ∧ freePorts [8081, 8085] x = true ∧
          freePorts [8081, 8085] y = true ∧
          8080 ≤ x ∧ x < 8080 + 100 ∧ 8080 ≤ y ∧ y < 8080 + 100)) :=
  FindAvailablePorts_same_port (freePorts [8081, 8085]) 8080 (by decide)
    (freePorts_neg _ (by decide)) (freePorts_hi _ (by decide))

/-! ## Facts about strings and the build step -/

theorem String_length_eq_zero (s : String) : s.length = 0 ↔ s = "" := by
  constructor
  · intro h
    cases s with
    | mk d =>
      have : d = [] := List.length_eq_zero.mp h
      subst this; rfl
  · intro h; subst h; rfl

theorem HasSuffix_append (s t : String) : strings.HasSuffix (s ++ t) t = true := by
  unfold strings.HasSuffix
  have h1 : (s ++ t).length = s.data.length + t.length := by
    rw [String.length_append]; rfl
  have h2 : (s ++ t).data = s.data ++ t.data := String.data_append s t
  rw [h1, h2, Nat.add_sub_cancel, List.drop_left]
  simp

/-- `NewBuilder` stores the pre-build command trimmed. -/
theorem NewBuilder_preBuildCmd (GOOS dir bin : String) (useGodep : Bool) (wd : String)
    (buildArgs : List String) (preBuildCmd : String) :
    (NewBuilder GOOS dir bin useGodep wd buildArgs preBuildCmd).preBuildCmd =
      strings.TrimSpace preBuildCmd := rfl

/-- The resolved binary name, written out. -/
theorem NewBuilder_binary_eq (GOOS dir bin : String) (useGodep : Bool) (wd : String)
    (buildArgs : List String) (preBuildCmd : String) :
    (NewBuilder GOOS dir bin useGodep wd buildArgs preBuildCmd).Binary =
      if GOOS = "windows" then
        if strings.HasSuffix (if bin = "" then "bin" else bin) ".exe" = true then
          (if bin = "" then "bin" else bin)
        else (if bin = "" then "bin" else bin) ++ ".exe"
      else (if bin = "" then "bin" else bin) := by
  unfold NewBuilder builder.Binary
  simp only [String_length_eq_zero]
  by_cases hw : GOOS = "windows"
  · simp only [if_pos hw]
    by_cases hs : strings.HasSuffix (if bin = "" then "bin" else bin) ".exe" = true
    · simp [hs]
    · simp [hs]
  · simp only [if_neg hw]

theorem NewBuilder_binary_ne_empty (GOOS dir bin : String) (useGodep : Bool) (wd : String)
    (buildArgs : List String) (preBuildCmd : String) :
    (NewBuilder GOOS dir bin useGodep wd buildArgs preBuildCmd).Binary ≠ "" := by
  have hname : (if bin = "" then "bin" else bin) ≠ "" := by
    by_cases hb : bin = ""
    · rw [if_pos hb]; decide
    · rw [if_neg hb]; exact hb
  have happ : ∀ s : String, s ≠ "" → s ++ ".exe" ≠ "" := by
    intro s hs h
    apply hs
    have h1 : (s ++ ".exe").length = 0 := by rw [h]; rfl
    rw [String.length_append] at h1
    exact (String_length_eq_zero s).mp (by omega)
  rw [NewBuilder_binary_eq]
  generalize (if bin = "" then "bin" else bin) = name at hname ⊢
  split_ifs
  · exact hname
  · exact happ _ hname
  · exact hname

/-- A failing pre-build command ends `Build` at once: this is the whole result. -/
theorem Build_prebuild_eq {σ : Type} (os : OS σ) (b : builder) (w : World σ)
    (hcmd : b.preBuildCmd ≠ "")
    (herr : (os.CombinedOutput (builder.preCmd os.GOOS b) w.sys).1.err ≠ none) :
    builder.Build os b w =
      (Run.returned
          (some (GoError.Errorf (os.CombinedOutput (builder.preCmd os.GOOS b) w.sys).1.output),
          { b with errors := (os.CombinedOutput (builder.preCmd os.GOOS b) w.sys).1.output }),
        { sys := (os.CombinedOutput (builder.preCmd os.GOOS b) w.sys).2,
          stdout :=
            if (os.CombinedOutput (builder.preCmd os.GOOS b) w.sys).1.output.length > 0 then
              w.stdout ++ (os.CombinedOutput (builder.preCmd os.GOOS b) w.sys).1.output
            else w.stdout,
          executed := w.executed ++ [builder.preCmd os.GOOS b] }) := by
  obtain ⟨e0, he0⟩ := Option.ne_none_iff_exists'.mp herr
  unfold builder.Build
  rw [if_pos hcmd]
  simp only [World.run, he0]
  split_ifs <;> rfl

/-- The pre-build shell command is never the build command. -/
theorem cmd_ne_preCmd {σ : Type} (os : OS σ) (b : builder) :
    builder.cmd os b ≠ some (builder.preCmd os.GOOS b) := by
  unfold builder.cmd builder.preCmd builder.args exec.Command
  intro h
  split_ifs at h <;> simp at h

/-- The build command always exists: `args` is never empty. -/
theorem cmd_isSome {σ : Type} (os : OS σ) (b : builder) :
    ∃ cmd, builder.cmd os b = some cmd := by
  unfold builder.cmd builder.args
  by_cases h : b.useGodep = true
  · simp [h]
  · simp [h]

theorem buildStep_launch_failure {σ : Type} (os : OS σ) (b : builder) (w : World σ)
    (hlaunch : ∀ cmd sys, builder.cmd os b = some cmd →
      (os.CombinedOutput cmd sys).1.LaunchFailed) :
    ∃ reason w', builder.buildStep os b w = (Run.panicked reason, w') := by
  obtain ⟨cmd, hcmd⟩ := cmd_isSome os b
  unfold builder.buildStep
  rw [hcmd]
  have h := (hlaunch cmd w.sys hcmd).1
  simp only [World.run, h]
  exact ⟨_, _, rfl⟩

theorem buildStep_returned {σ : Type} (os : OS σ) (b : builder) (w : World σ)
    (e : Option GoError) (b' : builder) (w' : World σ)
    (h : builder.buildStep os b w = (Run.returned (e, b'), w')) :
    (e = none → b'.Errors = "") ∧ (b'.Errors ≠ "" → e = some (GoError.Errorf b'.Errors)) := by
  unfold builder.buildStep at h
  split at h
  · simp at h
  · rename_i cmd _
    simp only [World.run] at h
    split at h
    · simp at h
    · rename_i state _
      have hz : ∀ s : String, ¬ s.length > 0 → s = "" := by
        intro s hs
        rw [← String_length_eq_zero]; omega
      split_ifs at h with h1 h2 h3
      all_goals
        simp only [Prod.mk.injEq, Run.returned.injEq] at h
        obtain ⟨⟨he, hb⟩, _⟩ := h
        subst hb
        subst he
        unfold builder.Errors
      · exact absurd h2 (Nat.lt_irrefl 0)
      · exact ⟨fun _ => rfl, fun hne => absurd rfl hne⟩
      · exact ⟨fun h => Option.noConfusion h, fun _ => rfl⟩
      · exact ⟨fun _ => hz _ h3, fun hne => absurd (hz _ h3) hne⟩

/-! ## Build orchestration: the claims -/

/-- C3: for every builder whose stored (trimmed) pre-build command is non-empty and whose
pre-build run exits non-zero with combined output `s`, `Build()` returns a non-nil error,
`Errors()` afterwards is exactly `s`, and the only command executed during the call is
the pre-build shell command, which is not the build command. -/
theorem Build_prebuild_failure {σ : Type} (os : OS σ) (b : builder) (w : World σ) (s : String)
    (hcmd : b.preBuildCmd ≠ "")
    (hexit : (os.CombinedOutput (builder.preCmd os.GOOS b) w.sys).1.ExitedNonZero)
    (hout : (os.CombinedOutput (builder.preCmd os.GOOS b) w.sys).1.output = s) :
    ∃ e b' w', builder.Build os b w = (Run.returned (some e, b'), w') ∧
      b'.Errors = s ∧
      w'.executed = w.executed ++ [builder.preCmd os.GOOS b] ∧
      builder.cmd os b ≠ some (builder.preCmd os.GOOS b) :=
  ⟨_, _, _, Build_prebuild_eq os b w hcmd hexit.2, hout, rfl, cmd_ne_preCmd os b⟩

theorem Build_prebuild_failure_witness :
    (NewBuilder "linux" "/src" "app" false "/out" [] " make generate\n").preBuildCmd
      = "make generate" ∧
    ∃ e b' w',
      builder.Build (scriptedOS "linux" (Completed.exitStatus1 "boom") Completed.silentSuccess)
        (NewBuilder "linux" "/src" "app" false "/out" [] " make generate\n") freshWorld
        = (Run.returned (some e, b'), w') ∧
      b'.Errors = "boom" ∧
      w'.executed = freshWorld.executed ++
        [builder.preCmd "linux" (NewBuilder "linux" "/src" "app" false "/out" [] " make generate\n")] ∧
      builder.cmd (scriptedOS "linux" (Completed.exitStatus1 "boom") Completed.silentSuccess)
          (NewBuilder "linux" "/src" "app" false "/out" [] " make generate\n")
        ≠ some (builder.preCmd "linux"
            (NewBuilder "linux" "/src" "app" false "/out" [] " make generate\n")) :=
  ⟨by decide,
   Build_prebuild_failure
    (scriptedOS "linux" (Completed.exitStatus1 "boom") Completed.silentSuccess)
    (NewBuilder "linux" "/src" "app" false "/out" [] " make generate\n") freshWorld "boom"
    (by decide) (by unfold Completed.ExitedNonZero; decide) (by decide)⟩

/-- C4 (what the code does instead): when the pre-build step is absent or succeeds and the
build command cannot be launched (an error and no process state), `Build()` does not
return the launch error: reading the process state panics. -/
theorem Build_launch_failure_panics {σ : Type} (os : OS σ) (b : builder) (w : World σ)
    (hpre : b.preBuildCmd = "" ∨
      (os.CombinedOutput (builder.preCmd os.GOOS b) w.sys).1.err = none)
    (hlaunch : ∀ cmd sys, builder.cmd os b = some cmd →
      (os.CombinedOutput cmd sys).1.LaunchFailed) :
    ∃ reason w', builder.Build os b w = (Run.panicked reason, w') := by
  unfold builder.Build
  by_cases hcmd : b.preBuildCmd ≠ ""
  · rw [if_pos hcmd]
    have he : (os.CombinedOutput (builder.preCmd os.GOOS b) w.sys).1.err = none := by
      rcases hpre with h | h
      · exact absurd h hcmd
      · exact h
    simp only [World.run, he]
    exact buildStep_launch_failure os b _ hlaunch
  · rw [if_neg hcmd]
    exact buildStep_launch_failure os b w hlaunch

theorem Build_launch_failure_panics_witness :
    ∃ reason w', builder.Build
      (scriptedOS "linux" Completed.silentSuccess Completed.notFound)
      (NewBuilder "linux" "/src" "app" true "/out" [] "") freshWorld
        = (Run.panicked reason, w') :=
  Build_launch_failure_panics _ _ _ (Or.inl rfl) (by
    intro cmd sys h
    have h' : cmd = ⟨"godep", ["godep", "go", "build", "-o", "/out/app"], "/src"⟩ :=
      (Option.some.inj h).symm
    subst h'
    cases sys
    exact ⟨rfl, by decide⟩)

/-- C5 (what the code does instead): a build that fails with an output containing a percent
sign returns an error whose message is not that output, because the output is used as a
format string; `Errors()` still holds the output itself. -/
theorem Build_error_message_percent :
    ∃ e b' w',
      builder.Build
        (scriptedOS "linux" Completed.silentSuccess
          (Completed.exitStatus1 "./main.go:4:12: invalid operation: operator % not defined on x (variable of type float64)\n"))
        (NewBuilder "linux" "/src" "app" false "/out" [] "") freshWorld
        = (Run.returned (some e, b'), w') ∧
      b'.Errors = "./main.go:4:12: invalid operation: operator % not defined on x (variable of type float64)\n" ∧
      e.Error = some "./main.go:4:12: invalid operation: operator %!n(MISSING)ot defined on x (variable of type float64)\n" ∧
      e.Error ≠ some b'.Errors :=
  ⟨_, _, _, rfl, rfl, rfl, by decide⟩

/-- C8 (as stated) fails: a pre-build command that exits non-zero without printing
anything makes `Build()` fail while `Errors()` is empty. -/
theorem Build_fails_with_empty_Errors :
    ∃ e b' w',
      builder.Build (scriptedOS "linux" (Completed.exitStatus1 "") Completed.silentSuccess)
        (NewBuilder "linux" "/src" "app" false "/out" [] "test -f go.mod") freshWorld
        = (Run.returned (some e, b'), w') ∧
      b'.Errors = "" :=
  ⟨_, _, _, rfl, rfl⟩

/-- C8 (amended): after every `Build()` call that returns, `Errors()` is empty if the call
succeeded (returned nil), and if `Errors()` is non-empty the call failed, with the error
made from that text. -/
theorem Build_success_iff_no_errors {σ : Type} (os : OS σ) (b : builder) (w : World σ)
    (e : Option GoError) (b' : builder) (w' : World σ)
    (h : builder.Build os b w = (Run.returned (e, b'), w')) :
    (e = none → b'.Errors = "") ∧ (b'.Errors ≠ "" → e = some (GoError.Errorf b'.Errors)) := by
  unfold builder.Build at h
  by_cases hcmd : b.preBuildCmd ≠ ""
  · rw [if_pos hcmd] at h
    simp only [World.run] at h
    split at h
    · simp only [Prod.mk.injEq, Run.returned.injEq] at h
      obtain ⟨⟨he, hb⟩, _⟩ := h
      subst hb
      subst he
      exact ⟨fun h => Option.noConfusion h, fun _ => rfl⟩
    · exact buildStep_returned os b _ e b' w' h
  · rw [if_neg hcmd] at h
    exact buildStep_returned os b w e b' w' h

theorem Build_success_iff_no_errors_witness :
    ((none : Option GoError) = none →
      (NewBuilder "linux" "/src" "app" false "/out" [] "").Errors = "") ∧
    ((NewBuilder "linux" "/src" "app" false "/out" [] "").Errors ≠ "" →
      (none : Option GoError) =
        some (GoError.Errorf (NewBuilder "linux" "/src" "app" false "/out" [] "").Errors)) :=
  Build_success_iff_no_errors
    (scriptedOS "linux" Completed.silentSuccess Completed.silentSuccess)
    (NewBuilder "linux" "/src" "app" false "/out" [] "") freshWorld none
    (NewBuilder "linux" "/src" "app" false "/out" [] "")
    { sys := (), stdout := "",
      executed := [{ Path := "go", Args := ["go", "build", "-o", "/out/app"], Dir := "/src" }] }
    rfl

/-- C9: on a non-Windows target `Binary()` is the given name, or `bin` when the name is
empty; on Windows it ends in `.exe`, which is appended only when the name does not end in
it already; and resolving an already resolved name changes nothing. -/
theorem NewBuilder_Binary (GOOS dir bin : String) (useGodep : Bool) (wd : String)
    (buildArgs : List String) (preBuildCmd : String)
    (dir2 : String) (useGodep2 : Bool) (wd2 : String) (buildArgs2 : List String)
    (preBuildCmd2 : String) :
    ((NewBuilder GOOS dir bin useGodep wd buildArgs preBuildCmd).Binary =
      if GOOS = "windows" then
        if strings.HasSuffix (if bin = "" then "bin" else bin) ".exe" = true then
          (if bin = "" then "bin" else bin)
        else (if bin = "" then "bin" else bin) ++ ".exe"
      else (if bin = "" then "bin" else bin)) ∧
    (if GOOS = "windows" then
      strings.HasSuffix (NewBuilder GOOS dir bin useGodep wd buildArgs preBuildCmd).Binary ".exe"
        = true
     else (NewBuilder GOOS dir bin useGodep wd buildArgs preBuildCmd).Binary =
      if bin = "" then "bin" else bin) ∧
    (NewBuilder GOOS dir2 (NewBuilder GOOS dir bin useGodep wd buildArgs preBuildCmd).Binary
        useGodep2 wd2 buildArgs2 preBuildCmd2).Binary =
      (NewBuilder GOOS dir bin useGodep wd buildArgs preBuildCmd).Binary := by
  have hsuf : GOOS = "windows" →
      strings.HasSuffix (NewBuilder GOOS dir bin useGodep wd buildArgs preBuildCmd).Binary ".exe"
        = true := by
    intro hw
    rw [NewBuilder_binary_eq, if_pos hw]
    generalize (if bin = "" then "bin" else bin) = name
    split_ifs with hs
    · exact hs
    · exact HasSuffix_append _ _
  refine ⟨NewBuilder_binary_eq _ _ _ _ _ _ _, ?_, ?_⟩
  · by_cases hw : GOOS = "windows"
    · rw [if_pos hw]; exact hsuf hw
    · rw [if_neg hw, NewBuilder_binary_eq, if_neg hw]
  · have hne := NewBuilder_binary_ne_empty GOOS dir bin useGodep wd buildArgs preBuildCmd
    rw [NewBuilder_binary_eq GOOS dir2, if_neg hne]
    by_cases hw : GOOS = "windows"
    · rw [if_pos hw, if_pos (hsuf hw)]
    · rw [if_neg hw]

end gin
